import Mathlib

/-!
# Verification of the littleclaw agent core

A shallow embedding, in Lean 4, of the parts of the littleclaw repository
(Go) that the specification's testable properties talk about:

* the `tools` package: `Registry.resolveWorkspacePath`, `Registry.Execute`,
  `Registry.RegisterTool`, `Registry.loadSkills`, the `exec` tool handler
  and `isBannedCommand`;
* the `memory` package: `Store.ReadEntity` / `Store.WriteEntity` and
  `Store.ReadRecentHistory`;
* the `agent` package: `NanoCore.RunAgentLoop`, `CronService.AddJob`,
  `GenerateJobID` / `sanitizeLabel`.

Go strings are byte sequences; every byte-level operation here is modelled
over `List Char` (one `Char` per byte/rune — all paths and labels involved
are ASCII, where the two coincide), and Go's standard-library helpers
(`filepath.Clean`, `filepath.Join`, `filepath.Base`, `filepath.Dir`,
`strings.Contains`, `strings.TrimSpace`, ...) are reimplemented faithfully
from their documented lexical algorithms.  File-system and process effects
are made explicit: the file system is a map from path to contents, the
shell and the LLM provider are oracles supplied as parameters.
-/

namespace Littleclaw

/-! ## Go string primitives (byte sequences as `List Char`) -/

/-- A Go string, viewed as its sequence of bytes. -/
abbrev GoStr := List Char

/-- `strings.HasPrefix s pre`. -/
def goHasPre (s pre : GoStr) : Bool := pre.isPrefixOf s

/-- `strings.TrimPrefix s pre`: drops `pre` from the front of `s` when present. -/
def goTrimPre (s pre : GoStr) : GoStr :=
  if goHasPre s pre then s.drop pre.length else s

/-- `strings.Contains s sub`: `sub` occurs as a contiguous substring of `s`. -/
def goContains (s sub : GoStr) : Bool :=
  match s with
  | [] => sub.isPrefixOf ([] : GoStr)
  | c :: t => sub.isPrefixOf (c :: t) || goContains t sub

/-- `strings.Index s "\n"`: index of the first newline byte, `none` if absent
(Go returns `-1`). -/
def idxNewline : GoStr → Option Nat
  | [] => none
  | c :: t => if c = '\n' then some 0 else (idxNewline t).map (· + 1)

/-- The whitespace class of `unicode.IsSpace` on the code points Go's
`strings.TrimSpace` trims (ASCII space classes plus NEL and NBSP). -/
def goIsSpace (c : Char) : Bool :=
  c = ' ' || c = '\t' || c = '\n' || c = Char.ofNat 11 || c = Char.ofNat 12 ||
    c = '\r' || c = Char.ofNat 133 || c = Char.ofNat 160

/-- `strings.TrimSpace`: removes leading and trailing whitespace. -/
def goTrimSpace (s : GoStr) : GoStr :=
  ((s.dropWhile goIsSpace).reverse.dropWhile goIsSpace).reverse

/-! ## `path/filepath` (Unix rules) -/

/-- Split a path into its `/`-separated components. -/
def splitSlash (s : GoStr) : List GoStr := s.splitOn '/'

/-- The component-stack core of `filepath.Clean`: processes components left to
right, dropping empty and `.` components, resolving `..` against the stack
(and discarding `..` at the root of a rooted path).  The accumulated stack is
kept reversed. -/
def cleanComps (rooted : Bool) : List GoStr → List GoStr → List GoStr
  | st, [] => st.reverse
  | st, c :: rest =>
    if c = ([] : GoStr) ∨ c = ['.'] then cleanComps rooted st rest
    else if c = ['.', '.'] then
      match st with
      | top :: st' =>
        if top = ['.', '.'] then cleanComps rooted (c :: top :: st') rest
        else cleanComps rooted st' rest
      | [] =>
        if rooted then cleanComps rooted [] rest
        else cleanComps rooted [c] rest
    else cleanComps rooted (c :: st) rest

/-- `filepath.Clean` (Unix): shortest lexically-equivalent path. -/
def goClean (p : GoStr) : GoStr :=
  if p = [] then ['.']
  else
    let rooted := goHasPre p ['/']
    let st := cleanComps rooted [] (splitSlash p)
    if rooted then '/' :: List.intercalate ['/'] st
    else if st = [] then ['.']
    else List.intercalate ['/'] st

/-- `filepath.Join a b`: joins the non-empty elements with `/` and cleans. -/
def goJoin (a b : GoStr) : GoStr :=
  if a = [] ∧ b = [] then []
  else if a = [] then goClean b
  else if b = [] then goClean a
  else goClean (a ++ '/' :: b)

/-- `filepath.IsAbs` (Unix): the path starts with `/`. -/
def goIsAbs (p : GoStr) : Bool := goHasPre p ['/']

/-- `filepath.Base`: last element of the path, after dropping trailing
slashes; `"."` for the empty path, `"/"` when the path is all slashes. -/
def goBase (p : GoStr) : GoStr :=
  if p = [] then ['.']
  else
    let p1 := (p.reverse.dropWhile (· = '/')).reverse
    let last := (p1.reverse.takeWhile (· ≠ '/')).reverse
    if last = [] then ['/'] else last

/-- `filepath.Dir`: everything up to and including the final separator,
cleaned (`"."` when the path holds no separator). -/
def goDir (p : GoStr) : GoStr :=
  goClean (p.reverse.dropWhile (· ≠ '/')).reverse

/-- `filepath.Ext`: the suffix starting at the final dot in the final
element; empty when there is no dot. -/
def goExt (p : GoStr) : GoStr :=
  let tail := p.reverse.takeWhile (· ≠ '/')
  if tail.contains '.' then ('.' :: (tail.takeWhile (· ≠ '.')).reverse) else []

/-! ## `pkg/tools`: tool results, the workspace sandbox, the registry -/

/-- `tools.ToolResult`: the outcome of one tool execution.  Go's zero values
(`""`, `nil` slice) model the optional fields being absent. -/
structure ToolResult where
  ForLLM : String
  ForUser : String := ""
  Files : List String := []
deriving DecidableEq, Repr

/-- `Registry.resolveWorkspacePath`: resolves a model-supplied path against
the workspace root.  `none` models the Go function returning a non-nil
error (the caller turns the error text into the tool result); `some q`
models returning the resolved path `q` with a nil error. -/
def resolveWorkspacePath (workspaceDir p : GoStr) : Option GoStr :=
  let p :=
    if goIsAbs p then
      let cleaned := goClean p
      if goHasPre cleaned workspaceDir then
        goTrimPre (goTrimPre cleaned workspaceDir) ['/']
      else p
    else p
  let cleanPath := goClean (goJoin workspaceDir p)
  if ¬ goHasPre cleanPath workspaceDir then none
  else
    let base := goBase cleanPath
    let dir := goDir cleanPath
    if base = "MEMORY.md".toList ∨ base = "HISTORY.md".toList ∨
        base = "INTERNAL.md".toList ∨ goContains dir "ENTITIES".toList = true ∨
        base = "ENTITIES".toList then
      none
    else some cleanPath

/-- `tools.isBannedCommand`: substring blocklist for the `exec` tool. -/
def isBannedCommand (cmd : String) : Bool :=
  ["rm -rf", "mkfs", "dd if="].any fun b => goContains cmd.toList b.toList

/-- Outcome of `exec.CommandContext("sh", "-c", cmd).CombinedOutput()`:
either a nil error with the combined output, or a non-nil error (whose
`Error()` text is carried) together with whatever output was captured. -/
inductive ShellOutcome where
  | success (output : String)
  | failure (errText : String) (output : String)
deriving DecidableEq, Repr

/-- The handler of the built-in `exec` tool.  The shell itself is an oracle
`shell : String → ShellOutcome` (the process effect); `cmdArg` is
`args["command"]` — `none` when the key is missing or not a string. -/
def execToolHandler (shell : String → ShellOutcome) (cmdArg : Option String) :
    ToolResult :=
  match cmdArg with
  | none => { ForLLM := "Error: command must be a string" }
  | some cmdStr =>
    if isBannedCommand cmdStr then
      { ForLLM := "Command blocked by safety guard (dangerous pattern detected)" }
    else
      match shell cmdStr with
      | .failure errText output =>
        { ForLLM := "Command failed: " ++ errText ++ "\nOutput: " ++ output }
      | .success output => { ForLLM := output }

/-- `providers.ToolDefinition.Function`: the declared name and description of
a tool.  The `Parameters` JSON schema is carried opaquely by no claim and is
not modelled. -/
structure ToolFunction where
  name : String
  description : String
deriving DecidableEq, Repr

/-- `providers.ToolDefinition`. -/
structure ToolDefinition where
  type : String
  function : ToolFunction
deriving DecidableEq, Repr

/-- `tools.Registry`, parametrised by the handler type `H` (in Go a handler
is an effectful closure; the claims below treat handlers opaquely or
instantiate `H` at a pure model such as `execToolHandler`).  The Go map
`handlers` is modelled as a function to `Option H`. -/
structure Registry (H : Type) where
  workspaceDir : String
  definitions : List ToolDefinition
  handlers : String → Option H

/-- `Registry.RegisterTool`: appends the definition to the slice and stores
the handler in the map under the definition's declared name. -/
def Registry.RegisterTool (r : Registry H) (d : ToolDefinition) (h : H) :
    Registry H :=
  { r with
    definitions := r.definitions ++ [d]
    handlers := fun n => if n = d.function.name then some h else r.handlers n }

/-- `Registry.Execute`: looks the name up in the handler map; an unknown
name yields the descriptive "not found" result, otherwise the handler runs
on the arguments.  `runHandler` models the call `handler(ctx, args)` for the
opaque handler type `H` at argument bag type `A`. -/
def Registry.Execute (r : Registry H) (runHandler : H → A → ToolResult)
    (name : String) (args : A) : ToolResult :=
  match r.handlers name with
  | none => { ForLLM := "Error: Tool '" ++ name ++ "' not found" }
  | some h => runHandler h args

/-- One entry of `os.ReadDir(skillsDir)`. -/
structure DirEntry where
  name : String
  isDir : Bool
deriving DecidableEq, Repr

/-- `strings.TrimSuffix`. -/
def goTrimSuffix (s suffix : GoStr) : GoStr :=
  if suffix.isSuffixOf s then s.take (s.length - suffix.length) else s

/-- The tool definition `loadSkills` builds for a skill file `name`
(extension stripped for the tool name). -/
def skillDefinition (name : String) : ToolDefinition :=
  { type := "function"
    function :=
      { name := String.mk (goTrimSuffix name.toList (goExt name.toList))
        description := "Dynamic skill: executes the " ++ name ++
          " script. Ensure to pass required arguments." } }

/-- The body of the `loadSkills` scan for one directory entry: directories
and files that are not `.sh`/`.py` are skipped, everything else is
registered via `RegisterTool`. -/
def registerSkillEntry (mkHandler : String → H) (r : Registry H)
    (e : DirEntry) : Registry H :=
  if e.isDir then r
  else if ¬ ".sh".toList.isSuffixOf e.name.toList ∧
      ¬ ".py".toList.isSuffixOf e.name.toList then r
  else r.RegisterTool (skillDefinition e.name) (mkHandler e.name)

/-- `Registry.loadSkills`: scans the directory listing and registers every
regular `.sh`/`.py` file as a tool via `RegisterTool`.  The directory
listing is passed in (the `os.ReadDir` effect made explicit), and
`mkHandler` models the per-script handler closure built from the file
name. -/
def Registry.loadSkills (r : Registry H) (entries : List DirEntry)
    (mkHandler : String → H) : Registry H :=
  entries.foldl (registerSkillEntry mkHandler) r

/-! ## `pkg/memory`: the file-backed memory store

The file system is modelled as a map from absolute path to file contents;
`none` is a missing file.  `os.WriteFile` replaces the full contents of the
target path (truncating), `os.ReadFile` of a missing file is the error case
(the store's readers turn it into `""`). -/

/-- The state of the workspace file system. -/
abbrev FileSystem := String → Option String

/-- `filepath.Join` on Lean `String`s. -/
def joinPath (a b : String) : String := String.mk (goJoin a.toList b.toList)

/-- `memory.Store`: the derived paths of the memory subsystem. -/
structure Store where
  workspaceDir : String
  memoryDir : String
  entitiesDir : String
  memoryFile : String
  historyFile : String
  internalFile : String
deriving DecidableEq, Repr

/-- `memory.NewStore`: derives every path from the workspace root (the
`MkdirAll` effect always succeeds in this model). -/
def NewStore (workspace : String) : Store :=
  let memoryDir := joinPath workspace "memory"
  let entitiesDir := joinPath memoryDir "ENTITIES"
  { workspaceDir := workspace
    memoryDir := memoryDir
    entitiesDir := entitiesDir
    memoryFile := joinPath memoryDir "MEMORY.md"
    historyFile := joinPath memoryDir "HISTORY.md"
    internalFile := joinPath memoryDir "INTERNAL.md" }

/-- The file-system name of an entity record:
`strings.ReplaceAll(entityName, " ", "_") + ".md"` (the pattern is the
single byte `' '`, so `ReplaceAll` is a per-byte map). -/
def entitySafeName (entityName : String) : String :=
  String.mk (entityName.toList.map fun c => if c = ' ' then '_' else c) ++ ".md"

/-- The absolute path of an entity record. -/
def Store.entityFilePath (s : Store) (entityName : String) : String :=
  joinPath s.entitiesDir (entitySafeName entityName)

/-- `Store.ReadEntity`: reads the entity record, `""` when the read errors
(missing file). -/
def Store.ReadEntity (s : Store) (fs : FileSystem) (entityName : String) :
    String :=
  (fs (s.entityFilePath entityName)).getD ""

/-- `Store.WriteEntity`: `os.WriteFile` of the record — a full overwrite of
that one path. -/
def Store.WriteEntity (s : Store) (fs : FileSystem) (entityName content : String) :
    FileSystem :=
  fun p => if p = s.entityFilePath entityName then some content else fs p

/-- `Store.ReadRecentHistory`, as a function of the current contents of
`HISTORY.md` (a byte sequence) and `maxBytes`: stats the file, seeks to
`size - maxBytes` when the file is larger, reads the tail, and if the read
did not start at the beginning drops through the first newline (provided
that newline is not the final byte) before trimming whitespace. -/
def ReadRecentHistory (content : GoStr) (maxBytes : Nat) : GoStr :=
  let size := content.length
  if size = 0 then []
  else
    let start := if size > maxBytes then size - maxBytes else 0
    let str := content.drop start
    let str :=
      if start > 0 then
        match idxNewline str with
        | some idx => if idx < str.length - 1 then str.drop (idx + 1) else str
        | none => str
      else str
    goTrimSpace str

/-! ## `pkg/agent`: the reasoning loop (`NanoCore.RunAgentLoop`)

The loop's control flow depends on the provider's responses (tool calls
requested or not, content empty or not) and nothing else; the provider and
the tool registry are oracles.  The provider oracle is indexed by the
number of the model call (its real argument, the accumulated message
sequence, is a function of that call history, so an oracle per call index
is fully general); the tool oracle by (model call index, position of the
tool call in the response). -/

/-- One requested tool call (`tc["id"]`, `tc["function"]["name"]`,
`tc["function"]["arguments"]`). -/
structure ToolCall where
  id : String
  name : String
  arguments : String
deriving DecidableEq, Repr

/-- The parsed fields of `providers.ChatResponse` the loop inspects. -/
structure ChatResponse where
  content : String
  toolCalls : List ToolCall
deriving DecidableEq, Repr

/-- The outcome of one `provider.Chat` call: a response, or a non-nil error. -/
inductive ProviderResult where
  | apiError (errText : String)
  | ok (resp : ChatResponse)
deriving DecidableEq, Repr

/-- Which `sendResponse` call site emitted an outbound message. -/
inductive SendSite where
  | apiError
  | toolOutput
  | finalAnswer
  | maxIterations
deriving DecidableEq, Repr

/-- One outbound message produced by `sendResponse` (the constant
chat/channel/reply-to fields are omitted), tagged with its call site. -/
structure Sent where
  site : SendSite
  content : String
  files : List String
deriving DecidableEq, Repr

/-- How one pass of the `for` body ended the loop: the loop condition went
false, `break` was reached, or the function `return`ed (API error). -/
inductive LoopExit where
  | condFalse
  | brk
  | ret
deriving DecidableEq, Repr

/-- The state on leaving the `for` loop. -/
structure LoopState where
  iteration : Nat
  calls : Nat
  sent : List Sent
  exit : LoopExit
deriving DecidableEq, Repr

/-- The outbound messages produced while executing one batch of tool calls:
for each requested call the registry's result is obtained from the oracle,
and a message is emitted iff the result has user-facing text or files,
formatted with the tool-name banner except for `send_telegram_file`. -/
def toolSends (execOracle : Nat → Nat → ToolResult) (callIdx : Nat)
    (tcs : List ToolCall) : List Sent :=
  tcs.enum.filterMap fun itc =>
    let result := execOracle callIdx itc.1
    if result.ForUser ≠ "" ∨ result.Files ≠ [] then
      some
        { site := .toolOutput
          content :=
            if itc.2.name ≠ "send_telegram_file" ∧ result.ForUser ≠ "" then
              "🛠 Tool `" ++ itc.2.name ++ "`: " ++ result.ForUser
            else result.ForUser
          files := result.Files }
    else none

/-- The `for iteration < maxIterations` loop of `RunAgentLoop`.  `fuel` is
the remaining iteration budget `maxIterations - iteration`, which makes the
loop structurally terminating; at `fuel = 0` the loop condition is false
and both legs agree. -/
def loopGo (provider : Nat → ProviderResult)
    (execOracle : Nat → Nat → ToolResult) (maxIterations : Nat) :
    Nat → Nat → Nat → List Sent → LoopState
  | 0, iteration, calls, sent => ⟨iteration, calls, sent, .condFalse⟩
  | fuel + 1, iteration, calls, sent =>
    if iteration < maxIterations then
      let iteration' := iteration + 1
      match provider calls with
      | .apiError errText =>
        ⟨iteration', calls + 1,
          sent ++ [⟨.apiError, "⚠ API Error: " ++ errText, []⟩], .ret⟩
      | .ok resp =>
        if resp.toolCalls ≠ [] then
          loopGo provider execOracle maxIterations fuel iteration' (calls + 1)
            (sent ++ toolSends execOracle calls resp.toolCalls)
        else
          ⟨iteration', calls + 1,
            if resp.content ≠ "" then sent ++ [⟨.finalAnswer, resp.content, []⟩]
            else sent,
            .brk⟩
    else ⟨iteration, calls, sent, .condFalse⟩

/-- What one invocation of `RunAgentLoop` did. -/
structure RunResult where
  modelCalls : Nat
  sent : List Sent
  aborted : Bool
deriving DecidableEq, Repr

/-- The text of the iteration-cap warning. -/
def maxIterationsMsg : String := "⚠ Reached maximum inference iterations."

/-- The statements after the `for` loop of `RunAgentLoop`: when the loop
`return`ed (API error) nothing more runs; otherwise the cap warning is sent
whenever `iteration >= maxIterations` on exit. -/
def afterLoop (maxIterations : Nat) (st : LoopState) : RunResult :=
  match st.exit with
  | .ret => ⟨st.calls, st.sent, true⟩
  | _ =>
    if st.iteration ≥ maxIterations then
      ⟨st.calls, st.sent ++ [⟨.maxIterations, maxIterationsMsg, []⟩], false⟩
    else ⟨st.calls, st.sent, false⟩

/-- `NanoCore.RunAgentLoop`: runs the bounded reasoning loop
(`maxIterations := 10`) followed by the post-loop cap check. -/
def RunAgentLoop (provider : Nat → ProviderResult)
    (execOracle : Nat → Nat → ToolResult) : RunResult :=
  afterLoop 10 (loopGo provider execOracle 10 10 0 0 [])

/-! ## `pkg/agent`: the cron scheduler -/

/-- `agent.CronJob`. -/
structure CronJob where
  id : String
  schedule : String
  command : String
  chatID : String
  channel : String
  label : String
deriving DecidableEq, Repr

/-- A Go `map[string]β`, as an association list with at most one pair per
key (assignment replaces in place). -/
def mapLookup (m : List (String × β)) (k : String) : Option β :=
  match m with
  | [] => none
  | (k', v) :: rest => if k' = k then some v else mapLookup rest k

/-- Go map assignment `m[k] = v`. -/
def mapInsert (m : List (String × β)) (k : String) (v : β) :
    List (String × β) :=
  match m with
  | [] => [(k, v)]
  | (k', v') :: rest =>
    if k' = k then (k, v) :: rest else (k', v') :: mapInsert rest k v

/-- Go `delete(m, k)`. -/
def mapErase (m : List (String × β)) (k : String) : List (String × β) :=
  m.filter fun kv => kv.1 ≠ k

/-- The values of a Go map (the order `save` happens to serialize them in). -/
def mapValues (m : List (String × β)) : List β := m.map (·.2)

/-- The robfig `cron.Cron` runner: live entries (id, schedule) and the next
entry id it will hand out (ids start at 1 and never repeat). -/
structure CronRunner where
  nextID : Nat
  entries : List (Nat × String)
deriving DecidableEq, Repr

/-- `cron.Cron.AddFunc`: parses the schedule (validity decided by the
`parseOk` oracle for robfig's parser), and on success registers a new entry
under a fresh id.  `none` models the returned parse error. -/
def CronRunner.addFunc (r : CronRunner) (parseOk : String → Bool)
    (schedule : String) : Option (Nat × CronRunner) :=
  if parseOk schedule then
    some (r.nextID, ⟨r.nextID + 1, r.entries ++ [(r.nextID, schedule)]⟩)
  else none

/-- `cron.Cron.Remove`: unschedules the entry with that id. -/
def CronRunner.remove (r : CronRunner) (id : Nat) : CronRunner :=
  ⟨r.nextID, r.entries.filter fun e => e.1 ≠ id⟩

/-- The mutable state of `agent.CronService`: the job map, the entry-id
map, the runner, and the last job list written to `CRON.json` (`none`
before any save). -/
structure CronState where
  jobs : List (String × CronJob)
  entryIDs : List (String × Nat)
  runner : CronRunner
  persisted : Option (List CronJob)
deriving DecidableEq, Repr

/-- `agent.NewCronService`: empty maps, fresh runner, nothing persisted. -/
def NewCronService : CronState :=
  { jobs := [], entryIDs := [], runner := ⟨1, []⟩, persisted := none }

/-- `CronService.schedule` (under the service mutex): adds the job to the
runner and records its entry id. -/
def CronState.schedule (s : CronState) (parseOk : String → Bool)
    (job : CronJob) : Option CronState :=
  match s.runner.addFunc parseOk job.schedule with
  | none => none
  | some (entryID, runner') =>
    some { s with runner := runner', entryIDs := mapInsert s.entryIDs job.id entryID }

/-- `CronService.AddJob`: if a job with the same id exists, its timer entry
is removed first; the new job is scheduled (an invalid schedule is the
`Except.error` case), stored in the job map, and the full set persisted. -/
def CronState.AddJob (s : CronState) (parseOk : String → Bool)
    (job : CronJob) : Except String CronState :=
  let s :=
    match mapLookup s.jobs job.id with
    | some oldJob =>
      match mapLookup s.entryIDs oldJob.id with
      | some entryID =>
        { s with runner := s.runner.remove entryID
                 entryIDs := mapErase s.entryIDs oldJob.id }
      | none => s
    | none => s
  match s.schedule parseOk job with
  | none => .error ("invalid schedule " ++ job.schedule)
  | some s =>
    let s := { s with jobs := mapInsert s.jobs job.id job }
    .ok { s with persisted := some (mapValues s.jobs) }

/-- `agent.sanitizeLabel`: builds the id byte-by-byte, keeping ASCII
alphanumerics and replacing every other rune by `'_'`, then truncates the
result to 20 bytes. -/
def sanitizeLabel (s : String) : String :=
  let result : GoStr :=
    s.toList.foldl
      (fun acc c =>
        if ('a' ≤ c ∧ c ≤ 'z') ∨ ('A' ≤ c ∧ c ≤ 'Z') ∨ ('0' ≤ c ∧ c ≤ '9') then
          acc ++ [c]
        else acc ++ ['_'])
      []
  let result := if result.length > 20 then result.take 20 else result
  String.mk result

/-- `agent.GenerateJobID`. -/
def GenerateJobID (label : String) : String := sanitizeLabel label

/-! ## Auxiliary definitions used by the statements below -/

/-- The job-id derivation as the specification words it: non-alphanumeric
characters are *stripped* (removed) and the result truncated to 20
characters.  Stated separately from `sanitizeLabel` so the two derivations
can be compared. -/
def jobIDSpecStripped (label : String) : String :=
  String.mk
    ((label.toList.filter fun c =>
      ('a' ≤ c ∧ c ≤ 'z') ∨ ('A' ≤ c ∧ c ≤ 'Z') ∨ ('0' ≤ c ∧ c ≤ '9')).take 20)

/-- `result` begins at a line boundary of `content`: it is the
whitespace-trim of a suffix of `content` that starts either at the very
beginning of the file or immediately after a newline byte.  (Suffix starts
beyond the end of the file coincide with the empty suffix, so bounding the
start by the length loses nothing.) -/
def beginsAtLineBoundary (content result : GoStr) : Bool :=
  (List.range (content.length + 1)).any fun k =>
    decide (result = goTrimSpace (content.drop k)) &&
      (decide (k = 0) || decide (content[k - 1]? = some '\n'))

/-- Number of outbound messages emitted by the iteration-cap call site. -/
def countMaxIterSent (l : List Sent) : Nat :=
  (l.filter fun s => decide (s.site = SendSite.maxIterations)).length

/-- A provider whose first nine responses each request one tool call and
whose tenth response is the plain final answer `"done"`. -/
def providerNineToolsThenAnswer : Nat → ProviderResult := fun n =>
  if n < 9 then .ok ⟨"", [⟨"call-1", "some_tool", "{}"⟩]⟩ else .ok ⟨"done", []⟩

/-- A tool oracle whose results carry text for the model only (no
user-facing output, no files). -/
def silentExecOracle : Nat → Nat → ToolResult := fun _ _ => ⟨"ok", "", []⟩

/-- A shell in which every command succeeds with empty combined output
(e.g. `true`, or any quiet command). -/
def emptySilentShell : String → ShellOutcome := fun _ => .success ""

/-- The declared definition of the built-in `exec` tool. -/
def execDefinition : ToolDefinition :=
  { type := "function"
    function :=
      { name := "exec"
        description := "Executes a shell command inside the workspace directory." } }

/-- A registry with no tools registered (handler type left open). -/
def emptyRegistry (H : Type) : Registry H :=
  { workspaceDir := "/ws", definitions := [], handlers := fun _ => none }

/-- A registry holding just the `exec` tool, its handler closed over the
all-quiet shell. -/
def execOnlyRegistry : Registry (Option String → ToolResult) :=
  (emptyRegistry _).RegisterTool execDefinition (execToolHandler emptySilentShell)

/-- Calling a registry handler on its argument bag. -/
def applyHandler : (Option String → ToolResult) → Option String → ToolResult :=
  fun h a => h a

/-- A skill-handler factory for the unit handler type (the handlers'
behaviour is irrelevant to the definition-list claims). -/
def skillUnitHandler : String → Unit := fun _ => ()

/-- Whether `loadSkills` registers a directory entry as a skill:
a regular file with extension `.sh` or `.py`. -/
def skillEligible (e : DirEntry) : Bool :=
  !e.isDir &&
    (".sh".toList.isSuffixOf e.name.toList || ".py".toList.isSuffixOf e.name.toList)

/-- The tool name a skill file registers under. -/
def skillToolName (e : DirEntry) : String := (skillDefinition e.name).function.name

/-- The file name of the last eligible entry registering tool name `n`,
`acc` when none does (the fold shadows earlier registrations). -/
def lastSkillAux (n : String) : Option String → List DirEntry → Option String
  | acc, [] => acc
  | acc, e :: rest =>
    lastSkillAux n
      (if skillEligible e = true ∧ skillToolName e = n then some e.name else acc) rest

/-- The file name of the last eligible entry registering tool name `n`. -/
def lastSkill (entries : List DirEntry) (n : String) : Option String :=
  lastSkillAux n none entries

/-- Running `AddJob` twice in sequence from a fresh service, propagating the
first error if any (the tool-call sequence of the spec's example). -/
def addJobTwice (parseOk : String → Bool) (j1 j2 : CronJob) :
    Except String CronState :=
  match NewCronService.AddJob parseOk j1 with
  | .ok s1 => s1.AddJob parseOk j2
  | .error e => .error e

/-- The spec's example job, `"joke"`, on its first schedule. -/
def jokeJob1 : CronJob :=
  ⟨"joke", "@every 10s", "echo joke", "42", "telegram", "joke"⟩

/-- The spec's example job, `"joke"`, re-added with a different schedule. -/
def jokeJob2 : CronJob :=
  ⟨"joke", "@every 1h", "echo a better joke", "42", "telegram", "joke"⟩

/-- A schedule parser accepting every expression (both example schedules
are valid robfig expressions). -/
def parseAlwaysOk : String → Bool := fun _ => true

/-! ## Helper lemmas -/

/-- Each pass of the loop body makes one model call and consumes one unit
of iteration budget, so the calls counter can rise by at most `fuel`. -/
theorem loopGo_calls_le (provider : Nat → ProviderResult)
    (execOracle : Nat → Nat → ToolResult) (m : Nat) :
    ∀ (fuel iteration calls : Nat) (sent : List Sent),
      (loopGo provider execOracle m fuel iteration calls sent).calls ≤ calls + fuel := by
  intro fuel
  induction fuel with
  | zero => intro i c s; simp [loopGo]
  | succ fuel ih =>
    intro i c s
    simp only [loopGo]
    split
    · split
      · simp
      · rename_i resp heq
        split
        · have := ih (i + 1) (c + 1) (s ++ toolSends execOracle c resp.toolCalls)
          omega
        · simp
    · simp

/-- The iteration counter and the model-call counter advance in lockstep. -/
theorem loopGo_iter_eq_calls (provider : Nat → ProviderResult)
    (execOracle : Nat → Nat → ToolResult) (m : Nat) :
    ∀ (fuel iteration calls : Nat) (sent : List Sent), iteration = calls →
      (loopGo provider execOracle m fuel iteration calls sent).iteration =
        (loopGo provider execOracle m fuel iteration calls sent).calls := by
  intro fuel
  induction fuel with
  | zero => intro i c s h; simp [loopGo, h]
  | succ fuel ih =>
    intro i c s h
    simp only [loopGo]
    split
    · split
      · simp [h]
      · split
        · exact ih (i + 1) (c + 1) _ (by omega)
        · simp [h]
    · simp [h]

/-- `countMaxIterSent` distributes over concatenation. -/
theorem countMaxIterSent_append (a b : List Sent) :
    countMaxIterSent (a ++ b) = countMaxIterSent a + countMaxIterSent b := by
  simp [countMaxIterSent, List.filter_append]

/-- Tool execution only emits tool-output messages, never the cap warning. -/
theorem toolSends_no_maxIter (execOracle : Nat → Nat → ToolResult) (c : Nat)
    (tcs : List ToolCall) : countMaxIterSent (toolSends execOracle c tcs) = 0 := by
  simp only [countMaxIterSent, List.length_eq_zero]
  rw [List.filter_eq_nil_iff]
  intro x hx
  simp only [toolSends, List.mem_filterMap] at hx
  obtain ⟨a, _, hfa⟩ := hx
  split at hfa
  · rw [Option.some_inj] at hfa
    subst hfa
    simp
  · exact absurd hfa (by simp)

/-- The loop body itself never emits the cap warning — only the post-loop
check does. -/
theorem loopGo_countMaxIter (provider : Nat → ProviderResult)
    (execOracle : Nat → Nat → ToolResult) (m : Nat) :
    ∀ (fuel iteration calls : Nat) (sent : List Sent),
      countMaxIterSent (loopGo provider execOracle m fuel iteration calls sent).sent =
        countMaxIterSent sent := by
  intro fuel
  induction fuel with
  | zero => intro i c s; simp [loopGo]
  | succ fuel ih =>
    intro i c s
    simp only [loopGo]
    split
    · split
      · simp [countMaxIterSent_append, countMaxIterSent]
      · rename_i resp heq
        split
        · rw [ih (i + 1) (c + 1) (s ++ toolSends execOracle c resp.toolCalls),
            countMaxIterSent_append, toolSends_no_maxIter]
          omega
        · split <;> simp [countMaxIterSent_append, countMaxIterSent]
    · simp

/-- The post-loop check does not change the model-call count. -/
theorem afterLoop_modelCalls (m : Nat) (st : LoopState) :
    (afterLoop m st).modelCalls = st.calls := by
  obtain ⟨i, c, s, ex⟩ := st
  cases ex <;> simp only [afterLoop] <;> split <;> rfl

/-- The cap warning is emitted (exactly once) iff the loop used every
iteration and did not abort on an API error. -/
theorem afterLoop_countMaxIter (m : Nat) (st : LoopState)
    (h2 : st.iteration = st.calls) (h1 : st.calls ≤ m)
    (h3 : countMaxIterSent st.sent = 0) :
    countMaxIterSent (afterLoop m st).sent =
      if (afterLoop m st).modelCalls = m ∧ (afterLoop m st).aborted = false
      then 1 else 0 := by
  obtain ⟨i, c, s, ex⟩ := st
  dsimp only at h1 h2 h3
  subst h2
  cases ex
  · dsimp only [afterLoop]
    split
    · rename_i hge
      rw [countMaxIterSent_append, h3]
      dsimp only
      rw [if_pos ⟨by omega, rfl⟩]
      rfl
    · rename_i hlt
      rw [h3]
      dsimp only
      rw [if_neg]
      rintro ⟨hc, -⟩
      omega
  · dsimp only [afterLoop]
    split
    · rename_i hge
      rw [countMaxIterSent_append, h3]
      dsimp only
      rw [if_pos ⟨by omega, rfl⟩]
      rfl
    · rename_i hlt
      rw [h3]
      dsimp only
      rw [if_neg]
      rintro ⟨hc, -⟩
      omega
  · dsimp only [afterLoop]
    rw [h3, if_neg]
    rintro ⟨-, hab⟩
    simp at hab

/-- The per-entry scan step registers exactly the eligible entries. -/
theorem registerSkillEntry_eq (H : Type) (mk : String → H) (r : Registry H)
    (e : DirEntry) :
    registerSkillEntry mk r e =
      if skillEligible e = true
      then r.RegisterTool (skillDefinition e.name) (mk e.name) else r := by
  obtain ⟨nm, d⟩ := e
  cases d
  · simp only [registerSkillEntry, skillEligible]
    simp only [Bool.not_false, Bool.true_and, decide_eq_true_eq]
    split_ifs <;> first | rfl | simp_all
  · simp [registerSkillEntry, skillEligible]

/-- How one scan step changes the handler map. -/
theorem registerSkillEntry_handlers (H : Type) (mk : String → H)
    (r : Registry H) (e : DirEntry) (n : String) :
    (registerSkillEntry mk r e).handlers n =
      if skillEligible e = true ∧ skillToolName e = n then some (mk e.name)
      else r.handlers n := by
  rw [registerSkillEntry_eq]
  by_cases he : skillEligible e = true
  · rw [if_pos he]
    dsimp only [Registry.RegisterTool]
    by_cases hn : n = (skillDefinition e.name).function.name
    · rw [if_pos hn, if_pos ⟨he, (show skillToolName e = n from hn.symm)⟩]
    · rw [if_neg hn, if_neg (fun h => hn (show n = _ from h.2.symm))]
  · rw [if_neg he, if_neg (fun h => he h.1)]

/-- The fold computing `lastSkill` only consults its accumulator when no
later entry matches. -/
theorem lastSkillAux_shift (n : String) :
    ∀ (entries : List DirEntry) (acc : Option String),
      lastSkillAux n acc entries =
        match lastSkillAux n none entries with
        | some f => some f
        | none => acc := by
  intro entries
  induction entries with
  | nil => intro acc; rfl
  | cons e rest ih =>
    intro acc
    by_cases hc : skillEligible e = true ∧ skillToolName e = n
    · simp only [lastSkillAux, if_pos hc]
      rw [ih (some e.name)]
      cases h : lastSkillAux n none rest <;> simp
    · simp only [lastSkillAux, if_neg hc]
      exact ih acc

/-- After a scan, the handler registered under `n` is the one built from
the last eligible entry with that tool name, and other names keep their
previous handler. -/
theorem loadSkills_handlers_char (H : Type) (mk : String → H) :
    ∀ (entries : List DirEntry) (r : Registry H) (n : String),
      (r.loadSkills entries mk).handlers n =
        match lastSkill entries n with
        | some f => some (mk f)
        | none => r.handlers n := by
  intro entries
  induction entries with
  | nil => intro r n; rfl
  | cons e rest ih =>
    intro r n
    show ((registerSkillEntry mk r e).loadSkills rest mk).handlers n = _
    rw [ih (registerSkillEntry mk r e) n, registerSkillEntry_handlers]
    simp only [lastSkill, lastSkillAux]
    by_cases hc : skillEligible e = true ∧ skillToolName e = n
    · rw [if_pos hc, if_pos hc, lastSkillAux_shift n rest (some e.name)]
      cases h : lastSkillAux n none rest <;> simp [h]
    · rw [if_neg hc, if_neg hc]

/-- `idxNewline` really points at a newline byte. -/
theorem idxNewline_get :
    ∀ (l : GoStr) (i : Nat), idxNewline l = some i → l[i]? = some '\n' := by
  intro l
  induction l with
  | nil => intro i h; simp [idxNewline] at h
  | cons c t ih =>
    intro i h
    simp only [idxNewline] at h
    split at h
    · rename_i hc
      rw [Option.some_inj] at h
      subst h
      simp [hc]
    · cases hopt : idxNewline t with
      | none => rw [hopt] at h; simp at h
      | some j =>
        rw [hopt] at h
        simp at h
        subst h
        simpa using ih j hopt

/-- To show a result begins at a line boundary it suffices to exhibit the
boundary position. -/
theorem beginsAtLineBoundary_intro (content result : GoStr) (k : Nat)
    (hk : k ≤ content.length) (hres : result = goTrimSpace (content.drop k))
    (hb : k = 0 ∨ content[k - 1]? = some '\n') :
    beginsAtLineBoundary content result = true := by
  simp only [beginsAtLineBoundary, List.any_eq_true, List.mem_range]
  refine ⟨k, by omega, ?_⟩
  rw [Bool.and_eq_true, Bool.or_eq_true]
  refine ⟨by simp [hres], ?_⟩
  rcases hb with h | h
  · left; simp [h]
  · right; simp [h]

/-! ## The claims -/

/-- C1: for every sequence of model responses and tool results, one
invocation of `RunAgentLoop` makes at most 10 model calls — the
`maxIterations` cap — no matter how many tool calls each response
requests.  Termination is witnessed by `RunAgentLoop` being a total
function: `loopGo` recurses on the iteration budget, which the loop
condition `iteration < maxIterations` bounds. -/
theorem runAgentLoop_modelCalls_le_cap (provider : Nat → ProviderResult)
    (execOracle : Nat → Nat → ToolResult) :
    (RunAgentLoop provider execOracle).modelCalls ≤ 10 := by
  have h := loopGo_calls_le provider execOracle 10 10 0 0 []
  rw [RunAgentLoop, afterLoop_modelCalls]
  omega

/-- C2: against workspace root `/ws`, `resolveWorkspacePath` rejects
`../../etc/passwd`, resolves `notes/todo.md` to `/ws/notes/todo.md`, and
rejects `MEMORY.md`, `HISTORY.md`, `INTERNAL.md` and paths under the
`ENTITIES` directory even though they resolve inside the workspace;
moreover no accepted path names a Memory-Store-owned file (its base is
never one of the three memory files or `ENTITIES`, and its directory never
contains `ENTITIES`), so the generic file tools cannot touch them. -/
theorem resolveWorkspacePath_examples_and_memory_guard :
    resolveWorkspacePath "/ws".toList "../../etc/passwd".toList = none ∧
    resolveWorkspacePath "/ws".toList "notes/todo.md".toList = some "/ws/notes/todo.md".toList ∧
    resolveWorkspacePath "/ws".toList "MEMORY.md".toList = none ∧
    resolveWorkspacePath "/ws".toList "HISTORY.md".toList = none ∧
    resolveWorkspacePath "/ws".toList "INTERNAL.md".toList = none ∧
    resolveWorkspacePath "/ws".toList "memory/ENTITIES/Alice_Smith.md".toList = none ∧
    (∀ ws p q, resolveWorkspacePath ws p = some q →
      goBase q ≠ "MEMORY.md".toList ∧ goBase q ≠ "HISTORY.md".toList ∧
      goBase q ≠ "INTERNAL.md".toList ∧
      goContains (goDir q) "ENTITIES".toList = false ∧
      goBase q ≠ "ENTITIES".toList) := by
  refine ⟨by decide, by decide, by decide, by decide, by decide, by decide, ?_⟩
  intro ws p q h
  simp [resolveWorkspacePath] at h
  obtain ⟨hpre, hg, hq⟩ := h
  subst hq
  exact ⟨hg.1, hg.2.1, hg.2.2.1, by simpa using hg.2.2.2.1, hg.2.2.2.2⟩

/-- Witness for C2: the guard instantiated at the accepted path
`/ws/notes/todo.md`. -/
theorem resolveWorkspacePath_guard_witness :
    goBase "/ws/notes/todo.md".toList ≠ "MEMORY.md".toList ∧
    goBase "/ws/notes/todo.md".toList ≠ "HISTORY.md".toList ∧
    goBase "/ws/notes/todo.md".toList ≠ "INTERNAL.md".toList ∧
    goContains (goDir "/ws/notes/todo.md".toList) "ENTITIES".toList = false ∧
    goBase "/ws/notes/todo.md".toList ≠ "ENTITIES".toList :=
  resolveWorkspacePath_examples_and_memory_guard.2.2.2.2.2.2 "/ws".toList
    "notes/todo.md".toList "/ws/notes/todo.md".toList (by decide)

/-- C3: the escape guard is a plain string-prefix test, so for workspace
root `/ws` the relative path `../ws-extra/f` cleans to `/ws-extra/f`, passes
the prefix check, and is accepted although it lies strictly outside the
workspace (it is neither the root itself nor under `/ws/`). -/
theorem resolveWorkspacePath_prefix_escape :
    resolveWorkspacePath "/ws".toList "../ws-extra/f".toList = some "/ws-extra/f".toList ∧
    goHasPre "/ws-extra/f".toList ("/ws".toList ++ ['/']) = false ∧
    "/ws-extra/f".toList ≠ "/ws".toList := by
  refine ⟨by decide, by decide, by decide⟩

/-- Counterexample for C4: in the registry holding the `exec` tool, running
a non-blocked command (`true`) whose shell execution succeeds with empty
combined output yields a `ToolResult` whose `ForLLM` is the empty string —
contradicting the claim that `ForLLM` is never empty. -/
theorem execute_exec_empty_forLLM :
    isBannedCommand "true" = false ∧
    emptySilentShell "true" = .success "" ∧
    (execOnlyRegistry.Execute applyHandler "exec" (some "true")).ForLLM = "" := by
  refine ⟨by decide, rfl, rfl⟩

/-- C4 amended: `Registry.Execute` answers an unknown tool name with
non-empty descriptive text, and the `exec` handler answers a blocked
command, a failed command, and a malformed argument with non-empty text;
but a shell command that succeeds with empty combined output produces an
empty `ForLLM` (the output is passed through verbatim). -/
theorem execute_failures_nonempty_but_empty_success_output :
    (∀ (H A : Type) (r : Registry H) (run : H → A → ToolResult) name args,
      r.handlers name = none → (r.Execute run name args).ForLLM ≠ "") ∧
    (∀ (shell : String → ShellOutcome) cmd, isBannedCommand cmd = true →
      (execToolHandler shell (some cmd)).ForLLM ≠ "") ∧
    (∀ (shell : String → ShellOutcome) cmd errText output,
      shell cmd = .failure errText output → isBannedCommand cmd = false →
      (execToolHandler shell (some cmd)).ForLLM ≠ "") ∧
    (∀ (shell : String → ShellOutcome), execToolHandler shell none ≠ ⟨"", "", []⟩) ∧
    (execToolHandler emptySilentShell (some "true")).ForLLM = "" := by
  refine ⟨?_, ?_, ?_, ?_, rfl⟩
  · intro H A r run name args h
    simp only [Registry.Execute, h]
    intro hc
    have hlen := congrArg String.length hc
    simp [String.length_append] at hlen
    exact absurd hlen.1.1 (by decide)
  · intro shell cmd hban
    simp [execToolHandler, hban]
  · intro shell cmd errText output hsh hban
    simp [execToolHandler, hban, hsh]
    intro hc
    have hlen := congrArg String.length hc
    simp [String.length_append] at hlen
    exact absurd hlen.1.1.1 (by decide)
  · intro shell
    simp [execToolHandler]

/-- Witness for C4 (amended): executing an unregistered name yields
non-empty `ForLLM`. -/
theorem execute_failures_nonempty_witness :
    ((emptyRegistry Unit).Execute (fun _ _ => ⟨"x", "", []⟩) "missing_tool" ()).ForLLM ≠ "" :=
  execute_failures_nonempty_but_empty_success_output.1 Unit Unit (emptyRegistry Unit)
    (fun _ _ => ⟨"x", "", []⟩) "missing_tool" () rfl

/-- Counterexample for C5: when the model requests tool calls on its first
nine responses and returns the final plain answer `"done"` on the tenth —
the last permitted iteration — the loop sends the final answer AND the
"reached maximum inference iterations" warning, contradicting the claim
that the warning is not emitted when the final answer arrives within the
cap. -/
theorem runAgentLoop_warns_after_final_answer_on_last_iteration :
    RunAgentLoop providerNineToolsThenAnswer silentExecOracle =
      { modelCalls := 10
        sent := [⟨.finalAnswer, "done", []⟩, ⟨.maxIterations, maxIterationsMsg, []⟩]
        aborted := false } := by decide

/-- C5 amended: the "reached maximum inference iterations" message is
emitted exactly once iff the loop made all 10 model calls and was not
aborted by an API error — in particular it is emitted when the cap is
reached without a final answer, but ALSO when the final answer arrives on
the last permitted iteration; it is never emitted when the loop ends
before the tenth call. -/
theorem runAgentLoop_maxIter_message_characterization
    (provider : Nat → ProviderResult) (execOracle : Nat → Nat → ToolResult) :
    countMaxIterSent (RunAgentLoop provider execOracle).sent =
      if (RunAgentLoop provider execOracle).modelCalls = 10 ∧
          (RunAgentLoop provider execOracle).aborted = false then 1 else 0 := by
  rw [RunAgentLoop]
  exact afterLoop_countMaxIter 10 _
    (loopGo_iter_eq_calls provider execOracle 10 10 0 0 [] rfl)
    (by simpa using loopGo_calls_le provider execOracle 10 10 0 0 [])
    (by simpa using loopGo_countMaxIter provider execOracle 10 10 0 0 [])

/-- Counterexample for C6: scanning a skills directory holding `joke.sh`
twice (as `reload_skills` does) leaves the tool name `joke` TWICE in the
definition list — `RegisterTool` appends the definition unconditionally, so
re-scanning is not idempotent on the definition list and a name can appear
more than once. -/
theorem loadSkills_reload_duplicates_definitions :
    ((((emptyRegistry Unit).loadSkills [⟨"joke.sh", false⟩] skillUnitHandler).loadSkills
        [⟨"joke.sh", false⟩] skillUnitHandler).definitions.map (·.function.name))
      = ["joke", "joke"] := by decide

/-- C6 amended: registering a tool under an existing name replaces its
handler (the handler map keeps exactly one handler per name, other names
are untouched) and re-scanning the skills directory is idempotent on the
handler map; but each registration appends the definition to the
definition list unconditionally, so a reload duplicates definition
entries. -/
theorem registerTool_replaces_handler_and_reload_idempotent :
    (∀ (H : Type) (r : Registry H) (d : ToolDefinition) (h : H),
      (r.RegisterTool d h).handlers d.function.name = some h ∧
      (∀ n, n ≠ d.function.name → (r.RegisterTool d h).handlers n = r.handlers n) ∧
      (r.RegisterTool d h).definitions = r.definitions ++ [d]) ∧
    (∀ (H : Type) (mk : String → H) (entries : List DirEntry) (r : Registry H),
      ((r.loadSkills entries mk).loadSkills entries mk).handlers =
        (r.loadSkills entries mk).handlers) := by
  constructor
  · intro H r d h
    refine ⟨?_, ?_, rfl⟩
    · simp [Registry.RegisterTool]
    · intro n hn
      simp [Registry.RegisterTool, hn]
  · intro H mk entries r
    funext n
    rw [loadSkills_handlers_char H mk entries, loadSkills_handlers_char H mk entries]
    cases h : lastSkill entries n <;> simp [h]

/-- Witness for C6 (amended): registering `exec` in the empty registry
stores its handler under `exec`, leaves other names unregistered, and
appends the definition. -/
theorem registerTool_replaces_handler_witness :
    ((emptyRegistry Unit).RegisterTool execDefinition ()).handlers "exec" = some () ∧
    ((emptyRegistry Unit).RegisterTool execDefinition ()).handlers "zzz" = none ∧
    ((emptyRegistry Unit).RegisterTool execDefinition ()).definitions = [execDefinition] := by
  have h := registerTool_replaces_handler_and_reload_idempotent.1 Unit
    (emptyRegistry Unit) execDefinition ()
  exact ⟨h.1, by rw [h.2.1 "zzz" (by decide)]; rfl, by rw [h.2.2]; rfl⟩

/-- C7: for every entity name and contents `A` and `B`, `WriteEntity n A`
followed by `ReadEntity n` returns exactly `A`, and a subsequent
`WriteEntity n B` makes `ReadEntity n` return exactly `B` — a full
overwrite, never a merge. -/
theorem writeEntity_readEntity_roundtrip (s : Store) (fs : FileSystem) (n A B : String) :
    s.ReadEntity (s.WriteEntity fs n A) n = A ∧
    s.ReadEntity (s.WriteEntity (s.WriteEntity fs n A) n B) n = B := by
  constructor <;> simp [Store.ReadEntity, Store.WriteEntity]

/-- Counterexample for C8: a history file of six `a` bytes with no newline,
read with `maxBytes = 3`, yields `"aaa"` — a string that starts in the
middle of the file's single line, contradicting the claim that the result
always begins at a line boundary when the file exceeds `maxBytes`. -/
theorem readRecentHistory_returns_midline_tail :
    (0 : Nat) < 3 ∧ 3 < ("aaaaaa".toList : GoStr).length ∧
    ReadRecentHistory "aaaaaa".toList 3 = "aaa".toList ∧
    beginsAtLineBoundary "aaaaaa".toList (ReadRecentHistory "aaaaaa".toList 3) = false := by
  refine ⟨by decide, by decide, by decide, by decide⟩

/-- C8 amended: when the file exceeds `maxBytes` and the tail that is read
contains a newline that is not its final byte, the result begins at a line
boundary (immediately after a newline byte of the underlying file); when
the tail contains no such newline the tail is returned as-is and may begin
mid-line. -/
theorem readRecentHistory_snaps_to_line_boundary
    (content : GoStr) (maxBytes idx : Nat)
    (hbig : content.length > maxBytes) (hpos : maxBytes > 0)
    (hidx : idxNewline (content.drop (content.length - maxBytes)) = some idx)
    (hlast : idx < (content.drop (content.length - maxBytes)).length - 1) :
    beginsAtLineBoundary content (ReadRecentHistory content maxBytes) = true := by
  have hld : (content.drop (content.length - maxBytes)).length =
      content.length - (content.length - maxBytes) := List.length_drop ..
  have hget : content[(content.length - maxBytes) + idx]? = some '\n' := by
    have h1 := idxNewline_get (content.drop (content.length - maxBytes)) idx hidx
    rwa [List.getElem?_drop] at h1
  apply beginsAtLineBoundary_intro content _ ((content.length - maxBytes) + (idx + 1))
  · omega
  · simp only [ReadRecentHistory]
    rw [if_neg (by omega : ¬ content.length = 0)]
    rw [if_pos hbig]
    rw [if_pos (by omega : content.length - maxBytes > 0)]
    rw [hidx]
    simp only
    rw [if_pos (by omega : idx < (content.drop (content.length - maxBytes)).length - 1)]
    rw [List.drop_drop]
  · right
    have hk1 : (content.length - maxBytes) + (idx + 1) - 1 =
        (content.length - maxBytes) + idx := by omega
    rw [hk1, hget]

/-- Witness for C8 (amended): the file `ab\ncd\nef` read with
`maxBytes = 5` (tail `cd\nef`, inner newline at index 2) begins at a line
boundary. -/
theorem readRecentHistory_snaps_witness :
    ("ab\ncd\nef".toList : GoStr).length > 5 ∧
    beginsAtLineBoundary "ab\ncd\nef".toList
      (ReadRecentHistory "ab\ncd\nef".toList 5) = true :=
  ⟨by decide,
    readRecentHistory_snaps_to_line_boundary "ab\ncd\nef".toList 5 2 (by decide)
      (by decide) (by decide) (by decide)⟩

/-- Counterexample for C9: `GenerateJobID` does not STRIP non-alphanumeric
characters — it replaces each with an underscore: the label `"a b"` yields
the id `"a_b"`, not the stripped `"ab"` the claim derives. -/
theorem generateJobID_underscores_not_stripped :
    GenerateJobID "a b" = "a_b" ∧ jobIDSpecStripped "a b" = "ab" ∧
    GenerateJobID "a b" ≠ jobIDSpecStripped "a b" := by
  refine ⟨by decide, by decide, by decide⟩

/-- C9 amended: the job id equals the label with every non-alphanumeric
rune REPLACED BY `_` (not removed) and the result truncated to at most 20
characters; the derivation is a function of the label, hence
deterministic. -/
theorem generateJobID_replace_truncate (label : String) :
    GenerateJobID label =
      String.mk ((label.toList.map fun c =>
        if ('a' ≤ c ∧ c ≤ 'z') ∨ ('A' ≤ c ∧ c ≤ 'Z') ∨ ('0' ≤ c ∧ c ≤ '9')
        then c else '_').take 20) ∧
    (GenerateJobID label).length ≤ 20 := by
  have hfold : ∀ (l : GoStr) (acc : GoStr),
      l.foldl (fun acc c =>
        if ('a' ≤ c ∧ c ≤ 'z') ∨ ('A' ≤ c ∧ c ≤ 'Z') ∨ ('0' ≤ c ∧ c ≤ '9') then
          acc ++ [c]
        else acc ++ ['_']) acc
        = acc ++ l.map (fun c =>
            if ('a' ≤ c ∧ c ≤ 'z') ∨ ('A' ≤ c ∧ c ≤ 'Z') ∨ ('0' ≤ c ∧ c ≤ '9')
            then c else '_') := by
    intro l
    induction l with
    | nil => intro acc; simp
    | cons c t ih =>
      intro acc
      by_cases hc : ('a' ≤ c ∧ c ≤ 'z') ∨ ('A' ≤ c ∧ c ≤ 'Z') ∨ ('0' ≤ c ∧ c ≤ '9') <;>
        simp [hc, ih]
  have hmain : GenerateJobID label =
      String.mk ((label.toList.map fun c =>
        if ('a' ≤ c ∧ c ≤ 'z') ∨ ('A' ≤ c ∧ c ≤ 'Z') ∨ ('0' ≤ c ∧ c ≤ '9')
        then c else '_').take 20) := by
    unfold GenerateJobID sanitizeLabel
    rw [hfold label.toList []]
    simp only [List.nil_append]
    split
    · rfl
    · rename_i hlen
      rw [List.take_of_length_le]
      omega
  refine ⟨hmain, ?_⟩
  rw [hmain]
  exact List.length_take_le 20 _

/-- C10: adding two jobs carrying the same identifier but different
schedules leaves exactly one active job under that identifier, scheduled
on the second schedule: the first job's timer entry is gone from the
runner, the runner holds exactly one entry with the second schedule, and
the persisted job set holds exactly the second job. -/
theorem addJob_same_id_keeps_second_schedule
    (parseOk : String → Bool) (j1 j2 : CronJob)
    (hid : j1.id = j2.id)
    (h1 : parseOk j1.schedule = true) (h2 : parseOk j2.schedule = true) :
    addJobTwice parseOk j1 j2 =
      .ok { jobs := [(j2.id, j2)], entryIDs := [(j2.id, 2)],
            runner := ⟨3, [(2, j2.schedule)]⟩, persisted := some [j2] } := by
  obtain ⟨id1, sch1, cmd1, chat1, chan1, lab1⟩ := j1
  obtain ⟨id2, sch2, cmd2, chat2, chan2, lab2⟩ := j2
  dsimp only at hid h1 h2 ⊢
  subst hid
  have step1 : NewCronService.AddJob parseOk ⟨id1, sch1, cmd1, chat1, chan1, lab1⟩ =
      .ok { jobs := [(id1, ⟨id1, sch1, cmd1, chat1, chan1, lab1⟩)],
            entryIDs := [(id1, 1)], runner := ⟨2, [(1, sch1)]⟩,
            persisted := some [⟨id1, sch1, cmd1, chat1, chan1, lab1⟩] } := by
    simp [CronState.AddJob, CronState.schedule, CronRunner.addFunc, mapLookup,
      mapInsert, mapValues, NewCronService, h1]
  have step2 : CronState.AddJob
      { jobs := [(id1, ⟨id1, sch1, cmd1, chat1, chan1, lab1⟩)],
        entryIDs := [(id1, 1)], runner := ⟨2, [(1, sch1)]⟩,
        persisted := some [⟨id1, sch1, cmd1, chat1, chan1, lab1⟩] }
      parseOk ⟨id1, sch2, cmd2, chat2, chan2, lab2⟩ =
      .ok { jobs := [(id1, ⟨id1, sch2, cmd2, chat2, chan2, lab2⟩)],
            entryIDs := [(id1, 2)], runner := ⟨3, [(2, sch2)]⟩,
            persisted := some [⟨id1, sch2, cmd2, chat2, chan2, lab2⟩] } := by
    simp [CronState.AddJob, CronState.schedule, CronRunner.addFunc, CronRunner.remove,
      mapLookup, mapInsert, mapErase, mapValues, h2]
  unfold addJobTwice
  rw [step1]
  exact step2

/-- Witness for C10: the `"joke"` job added twice with schedules
`@every 10s` then `@every 1h` leaves one job on the second schedule. -/
theorem addJob_joke_witness :
    addJobTwice parseAlwaysOk jokeJob1 jokeJob2 =
      .ok { jobs := [("joke", jokeJob2)], entryIDs := [("joke", 2)],
            runner := ⟨3, [(2, "@every 1h")]⟩, persisted := some [jokeJob2] } :=
  addJob_same_id_keeps_second_schedule parseAlwaysOk jokeJob1 jokeJob2 rfl rfl rfl

end Littleclaw
